import Mathlib

/-!
Verification of ralphex (Go) against its natural-language specification.

Strings from the Go source are modelled as `List Char`; each Go function used
by a claim is translated structurally into a Lean definition of the same name,
grouped in namespaces mirroring the Go packages (`progress`, `tui`, `ralphex`
for `cmd/ralphex/main.go`).
-/

/-- Convert a Lean string literal to the `List Char` representation used
throughout this development. -/
def str (s : String) : List Char := s.data

/-- ASCII digit test, matching Go's `r >= '0' && r <= '9'` checks. -/
def isDigitChar (c : Char) : Bool := '0' ≤ c && c ≤ '9'

/-- Model of Go `strings.ToLower` on a single character. The inputs relevant
here are ASCII; non-ASCII characters are left unchanged (they are removed by
the later alphanumeric filter in `sanitizePlanName` in any case). -/
def goToLowerChar (c : Char) : Char :=
  if 'A' ≤ c && c ≤ 'Z' then Char.ofNat (c.toNat + 32) else c

/-- Boolean test that `p` is an initial segment of `l` (Go `strings.HasPrefix p`
reversed argument order: here the pattern comes first). -/
def leadsWith : List Char → List Char → Bool
  | [], _ => true
  | _ :: _, [] => false
  | p :: ps, c :: cs => p == c && leadsWith ps cs

/-- Model of Go `strings.TrimSuffix(s, suf)`: remove `suf` from the end of `s`
when present. -/
def trimSuffixList (s suf : List Char) : List Char :=
  if leadsWith suf.reverse s.reverse then s.take (s.length - suf.length) else s

/-- Model of Unix `filepath.Base`: last element of the path, after removing
trailing slashes; `"."` for the empty path and `"/"` for an all-slash path. -/
def goBase (p : List Char) : List Char :=
  if p = [] then str "."
  else
    let q := (p.reverse.dropWhile (· == '/')).reverse
    if q = [] then str "/"
    else (q.reverse.takeWhile (· != '/')).reverse

/-- Model of Go `strings.Split(s, "\n")` (and the equivalent `SplitSeq`):
split into segments at every newline; always returns at least one segment. -/
def splitLines : List Char → List (List Char)
  | [] => [[]]
  | c :: rest =>
    if c = '\n' then [] :: splitLines rest
    else
      match splitLines rest with
      | [] => [[c]]
      | l :: ls => (c :: l) :: ls

/-- Model of Go `strings.TrimRight(s, "\n")`: drop trailing newlines. -/
def trimTrailingNewlines (s : List Char) : List Char :=
  (s.reverse.dropWhile (· == '\n')).reverse

/-- The last nonempty line of a text: drop trailing newlines, then take the
final segment up to the preceding newline. -/
def lastNonEmptyLine (s : List Char) : List Char :=
  ((s.reverse.dropWhile (· == '\n')).takeWhile (· != '\n')).reverse

namespace progress

/-- Character filter from `sanitizePlanName`: keep only `a-z`, `0-9` and `-`. -/
def keepChar (c : Char) : Bool :=
  ('a' ≤ c && c ≤ 'z') || ('0' ≤ c && c ≤ '9') || c == '-'

/-- Effect of the Go loop `for strings.Contains(result, "--") { result =
strings.ReplaceAll(result, "--", "-") }`: every maximal run of dashes is
collapsed to a single dash. -/
def collapseDashes : List Char → List Char
  | '-' :: '-' :: rest => collapseDashes ('-' :: rest)
  | c :: rest => c :: collapseDashes rest
  | [] => []

/-- Model of Go `strings.Trim(s, "-")`: drop leading and trailing dashes. -/
def trimDashes (s : List Char) : List Char :=
  ((s.dropWhile (· == '-')).reverse.dropWhile (· == '-')).reverse

/-- Translation of `sanitizePlanName` from `pkg/progress/progress.go`:
lowercase, replace spaces with dashes, keep only alphanumerics and dashes,
collapse double dashes, trim dashes, truncate to 50 (removing any trailing
dash), defaulting to `unnamed` when empty. -/
def sanitizePlanName (desc : List Char) : List Char :=
  let result := desc.map goToLowerChar
  let result := result.map (fun c => if c == ' ' then '-' else c)
  let result := result.filter keepChar
  let result := collapseDashes result
  let result := trimDashes result
  let result :=
    if result.length > 50 then
      ((result.take 50).reverse.dropWhile (· == '-')).reverse
    else result
  if result = [] then str "unnamed" else result

/-- Translation of `progressFilename` from `pkg/progress/progress.go`. -/
def progressFilename (planFile planDescription mode : List Char) : List Char :=
  if mode = str "plan" ∧ planDescription ≠ [] then
    str "progress-plan-" ++ sanitizePlanName planDescription ++ str ".txt"
  else if planFile ≠ [] then
    let stem := trimSuffixList (goBase planFile) (str ".md")
    if mode = str "codex-only" then str "progress-" ++ stem ++ str "-codex.txt"
    else if mode = str "review" then str "progress-" ++ stem ++ str "-review.txt"
    else str "progress-" ++ stem ++ str ".txt"
  else
    if mode = str "codex-only" then str "progress-codex.txt"
    else if mode = str "review" then str "progress-review.txt"
    else if mode = str "plan" then str "progress-plan.txt"
    else str "progress.txt"

/-- Inner part of the numbered-list scan in `isListItem`, entered after the
first digit: digits continue the scan; a dot must be followed by a space to
succeed; anything else fails. -/
def numTail : List Char → Bool
  | [] => false
  | c :: rest =>
    if isDigitChar c then numTail rest
    else if c = '.' then leadsWith [' '] rest
    else false

/-- Translation of `isListItem` from `pkg/progress/progress.go`: the line
starts with a bullet marker or with digits followed by a dot and a space. -/
def isListItem (line : List Char) : Bool :=
  leadsWith (str "- ") line || leadsWith (str "* ") line ||
    (match line with
     | c :: rest => isDigitChar c && numTail rest
     | [] => false)

/-- Translation of `formatListItem` from `pkg/progress/progress.go`: indent a
list item by two spaces, but only when the line has no leading whitespace. -/
def formatListItem (line : List Char) : List Char :=
  let trimmed := line.dropWhile (fun c => c == ' ' || c == '\t')
  if trimmed = line ∧ isListItem trimmed then ' ' :: ' ' :: line else line

/-- Translation of `Logger.PrintAligned` from `pkg/progress/progress.go`,
returning the written lines; the timestamp `ts` is passed in because the Go
code reads the wall clock. -/
def printAligned (ts text : List Char) : List (List Char) :=
  if text = [] then []
  else
    let t := trimTrailingNewlines text
    if t = [] then []
    else
      (splitLines t).filterMap fun line =>
        if line = [] then none
        else some ('[' :: ts ++ ']' :: ' ' :: formatListItem line)

/-- Abstraction of a `Logger`'s externally visible file state: whether its
progress file is open, whether the advisory lock is held, and the file
contents written so far. -/
structure LoggerState where
  fileOpen : Bool
  locked : Bool
  content : List Char
  deriving DecidableEq

/-- The 60-dash separator written by the header and footer. -/
def dashes60 : List Char := List.replicate 60 '-'

/-- Translation of `Logger.Close` from `pkg/progress/progress.go`: when the
file is open, append the separator and `Completed: <ts> (<elapsed>)`, release
the lock and close the file; a nil file is a no-op. `ts` and `elapsed` stand
for `time.Now().Format(...)` and `l.Elapsed()`. -/
def closeLogger (l : LoggerState) (ts elapsed : List Char) : LoggerState :=
  if l.fileOpen then
    { fileOpen := false, locked := false,
      content := l.content ++ '\n' :: dashes60 ++ '\n' ::
        (str "Completed: " ++ ts ++ str " (" ++ elapsed ++ str ")") ++ ['\n'] }
  else l

end progress

namespace tui

/-- Translation of `sanitizePlanName` from `pkg/tui/logger.go` (the duplicate
of the `pkg/progress` function). -/
def sanitizePlanName (desc : List Char) : List Char :=
  let result := desc.map goToLowerChar
  let result := result.map (fun c => if c == ' ' then '-' else c)
  let result := result.filter progress.keepChar
  let result := progress.collapseDashes result
  let result := progress.trimDashes result
  let result :=
    if result.length > 50 then
      ((result.take 50).reverse.dropWhile (· == '-')).reverse
    else result
  if result = [] then str "unnamed" else result

/-- Translation of `progressFilename` from `pkg/tui/logger.go` (the duplicate
of the `pkg/progress` function). -/
def progressFilename (planFile planDescription mode : List Char) : List Char :=
  if mode = str "plan" ∧ planDescription ≠ [] then
    str "progress-plan-" ++ sanitizePlanName planDescription ++ str ".txt"
  else if planFile ≠ [] then
    let stem := trimSuffixList (goBase planFile) (str ".md")
    if mode = str "codex-only" then str "progress-" ++ stem ++ str "-codex.txt"
    else if mode = str "review" then str "progress-" ++ stem ++ str "-review.txt"
    else str "progress-" ++ stem ++ str ".txt"
  else
    if mode = str "codex-only" then str "progress-codex.txt"
    else if mode = str "review" then str "progress-review.txt"
    else if mode = str "plan" then str "progress-plan.txt"
    else str "progress.txt"

/-- Translation of `isListItem` from `pkg/tui/logger.go` (identical in text to
the `pkg/progress` version). -/
def isListItem (line : List Char) : Bool :=
  leadsWith (str "- ") line || leadsWith (str "* ") line ||
    (match line with
     | c :: rest => isDigitChar c && progress.numTail rest
     | [] => false)

/-- Translation of `formatListItem` from `pkg/tui/logger.go`. -/
def formatListItem (line : List Char) : List Char :=
  let trimmed := line.dropWhile (fun c => c == ' ' || c == '\t')
  if trimmed = line ∧ isListItem trimmed then ' ' :: ' ' :: line else line

/-- Translation of the file-writing part of `teaLogger.PrintAligned` from
`pkg/tui/logger.go`: the lines written to the progress file (the same lines
are also joined and sent to the TUI as one `OutputMsg`). -/
def printAligned (ts text : List Char) : List (List Char) :=
  if text = [] then []
  else
    let t := trimTrailingNewlines text
    if t = [] then []
    else
      (splitLines t).filterMap fun line =>
        if line = [] then none
        else some ('[' :: ts ++ ']' :: ' ' :: formatListItem line)

/-- Translation of `teaLogger.Close` from `pkg/tui/logger.go`: when the file
is open, append the separator and `Completed: <ts>`, release the lock and
close the file; a nil file is a no-op. -/
def closeLogger (l : progress.LoggerState) (ts : List Char) : progress.LoggerState :=
  if l.fileOpen then
    { fileOpen := false, locked := false,
      content := l.content ++ '\n' :: progress.dashes60 ++ '\n' ::
        (str "Completed: " ++ ts) ++ ['\n'] }
  else l

/-- Abstraction of `SafeSender` from `pkg/tui/logger.go`: the `stopped` flag
together with the sequence of messages forwarded to the wrapped sender. -/
structure SafeSender (μ : Type) where
  stopped : Bool
  sent : List μ
  deriving DecidableEq

/-- Translation of `SafeSender.Send`: forward the message to the wrapped
sender unless `Stop` has been called. -/
def SafeSender.send {μ : Type} (s : SafeSender μ) (m : μ) : SafeSender μ :=
  if s.stopped then s else { s with sent := s.sent ++ [m] }

/-- Translation of `SafeSender.Stop`: mark the sender as stopped. -/
def SafeSender.stop {μ : Type} (s : SafeSender μ) : SafeSender μ :=
  { s with stopped := true }

/-- Translation of `maxOutputLines` from `pkg/tui/tui.go`. -/
def maxOutputLines : Nat := 10000

/-- Translation of `Model.appendOutput` from `pkg/tui/tui.go` restricted to
the output buffer: append the line, then trim to the last `maxOutputLines`
entries. -/
def appendOutput (output : List String) (line : String) : List String :=
  let out := output ++ [line]
  if out.length > maxOutputLines then out.drop (out.length - maxOutputLines)
  else out

/-- Translation of the TUI `State` enumeration from `pkg/tui/tui.go`. -/
inductive State
  | selectPlan
  | createPlan
  | executing
  | question
  | done
  deriving DecidableEq

/-- Outcome of the blocking `select` in `AskQuestion`: the context is done
with an error, an answer value arrives on the channel, or the channel is
closed (`ok == false`). -/
inductive AskOutcome
  | ctxDone (err : String)
  | received (answer : String)
  | chanClosed
  deriving DecidableEq

/-- Translation of `teaCollector.AskQuestion` from `pkg/tui/input_collector.go`
as a function of the options and of what the blocking `select` observes. -/
def askQuestion (options : List String) (outcome : AskOutcome) : Except String String :=
  if options = [] then .error "no options provided"
  else
    match outcome with
    | .ctxDone e => .error ("ask question: " ++ e)
    | .received a => .ok a
    | .chanClosed => .error "question canceled"

end tui

namespace ralphex

/-- Execution mode enumeration. Modelled from the spec: `pkg/processor` is not
part of the sources, but §3 of the spec fixes the four modes `Full`, `Review`,
`CodexOnly`, `Plan` used by `cmd/ralphex/main.go`. -/
inductive Mode
  | full
  | review
  | codexOnly
  | plan
  deriving DecidableEq

/-- The command-line options from `cmd/ralphex/main.go` that the mode and
initial-TUI-state decisions read. -/
structure Opts where
  planFile : List Char
  planDescription : List Char
  review : Bool
  codexOnly : Bool

/-- Translation of `determineMode` from `cmd/ralphex/main.go`. -/
def determineMode (o : Opts) : Mode :=
  if o.planDescription ≠ [] then .plan
  else if o.codexOnly then .codexOnly
  else if o.review then .review
  else .full

/-- Translation of `determineInitialTUIState` from `cmd/ralphex/main.go`. -/
def determineInitialTUIState (o : Opts) (mode : Mode) : tui.State :=
  if mode = .plan then .executing
  else if o.planFile ≠ [] then .executing
  else if o.review || o.codexOnly then .executing
  else .selectPlan

/-- Effect of `datePrefixRe.ReplaceAllString(name, "")` with the anchored
pattern matching a leading run of digits and dashes: drop that leading run. -/
def stripDateLead (s : List Char) : List Char :=
  s.dropWhile fun c => isDigitChar c || c == '-'

/-- Translation of `extractBranchName` from `cmd/ralphex/main.go`. -/
def extractBranchName (planFile : List Char) : List Char :=
  let name := trimSuffixList (goBase planFile) (str ".md")
  let branchName := (stripDateLead name).dropWhile (· == '-')
  if branchName = [] then name else branchName

end ralphex

/-- The stem of a plan file in the spec's words: the base name of the plan
file without the `.md` extension. -/
def stemOf (planFile : List Char) : List Char :=
  trimSuffixList (goBase planFile) (str ".md")

/-- The slug transformation exactly as claim C2 words it: description
lowercased, non-alphanumeric characters other than dashes stripped, double
dashes collapsed, trimmed to 50 characters, `unnamed` when empty. -/
def slugSpecC2 (desc : List Char) : List Char :=
  let r := (desc.map goToLowerChar).filter progress.keepChar
  let r := progress.collapseDashes r
  let r := r.take 50
  if r = [] then str "unnamed" else r

/-- The slug transformation as amended: description lowercased, spaces
replaced with dashes, remaining non-alphanumeric-non-dash characters
stripped, double dashes collapsed, leading and trailing dashes trimmed,
truncated to 50 characters with trailing dashes after truncation removed,
`unnamed` when the result would otherwise be empty. -/
def slugAmended (desc : List Char) : List Char :=
  let r := desc.map goToLowerChar
  let r := r.map (fun c => if c == ' ' then '-' else c)
  let r := r.filter progress.keepChar
  let r := progress.collapseDashes r
  let r := progress.trimDashes r
  let r :=
    if r.length > 50 then ((r.take 50).reverse.dropWhile (· == '-')).reverse
    else r
  if r = [] then str "unnamed" else r

/-- Branch-name derivation exactly as claim C3 words it: strip the directory
and the `.md` extension, remove a leading run matched by the anchored regex,
trim leading dashes, and fall back to the stem when the result is empty. -/
def branchNameSpec (planFile : List Char) : List Char :=
  let stem := trimSuffixList (goBase planFile) (str ".md")
  let r := (stem.dropWhile fun c => isDigitChar c || c == '-').dropWhile (· == '-')
  if r = [] then stem else r

/-- A line that begins with a list marker, exactly as claim C4 words it:
`- `, `* `, or a run of digits followed by `. `. -/
def listMarkerSpec (l : List Char) : Bool :=
  leadsWith (str "- ") l || leadsWith (str "* ") l ||
    (let ds := l.takeWhile isDigitChar
     !ds.isEmpty && leadsWith (str ". ") (l.drop ds.length))

-- sanity checks mirroring rows of TestSanitizePlanName and TestGetProgressFilename
example : progress.sanitizePlanName (str "implement caching") = str "implement-caching" := by decide
example : progress.sanitizePlanName (str "Add User Auth") = str "add-user-auth" := by decide
example : progress.sanitizePlanName (str "fix: bug #123") = str "fix-bug-123" := by decide
example : progress.sanitizePlanName (str "add   feature") = str "add-feature" := by decide
example : progress.sanitizePlanName (str "--test--") = str "test" := by decide
example : progress.sanitizePlanName (str "!@#$%") = str "unnamed" := by decide
example : progress.sanitizePlanName (str "") = str "unnamed" := by decide
example : progress.sanitizePlanName (str "API v2.0 endpoint") = str "api-v20-endpoint" := by decide
example : progress.sanitizePlanName
    (str "this is a very long plan description that exceeds the maximum length") =
    str "this-is-a-very-long-plan-description-that-exceeds" := by decide
example : progress.progressFilename (str "docs/plans/feature.md") (str "") (str "full") =
    str "progress-feature.txt" := by decide
example : progress.progressFilename (str "docs/plans/feature.md") (str "") (str "review") =
    str "progress-feature-review.txt" := by decide
example : progress.progressFilename (str "docs/plans/feature.md") (str "") (str "codex-only") =
    str "progress-feature-codex.txt" := by decide
example : progress.progressFilename (str "") (str "") (str "full") = str "progress.txt" := by decide
example : progress.progressFilename (str "") (str "implement caching") (str "plan") =
    str "progress-plan-implement-caching.txt" := by decide
example : progress.progressFilename (str "") (str "") (str "plan") =
    str "progress-plan.txt" := by decide
example : progress.progressFilename (str "plans/2024-01-15-refactor.md") (str "") (str "full") =
    str "progress-2024-01-15-refactor.txt" := by decide

-- sanity checks mirroring rows of TestExtractBranchName
example : ralphex.extractBranchName (str "add-feature.md") = str "add-feature" := by decide
example : ralphex.extractBranchName (str "docs/plans/add-feature.md") = str "add-feature" := by decide
example : ralphex.extractBranchName (str "2024-01-15-feature.md") = str "feature" := by decide
example : ralphex.extractBranchName (str "2024-01-15-12-30-my-feature.md") = str "my-feature" := by decide
example : ralphex.extractBranchName (str "12345.md") = str "12345" := by decide
example : ralphex.extractBranchName (str "2024---feature.md") = str "feature" := by decide
example : ralphex.extractBranchName (str "2024-01-15.md") = str "2024-01-15" := by decide

-- sanity checks for PrintAligned behavior
example : progress.printAligned (str "06-01-02 15:04:05") (str "") = [] := by decide
example : progress.printAligned (str "ts") (str "a\n\n- b\nc\n") =
    [str "[ts] a", str "[ts]   - b", str "[ts] c"] := by decide
example : progress.printAligned (str "ts") (str "12. x\n 1. y\n1.2. z") =
    [str "[ts]   12. x", str "[ts]  1. y", str "[ts] 1.2. z"] := by decide

/-! ## Claim theorems -/

/-- C10: the filename-derivation functions duplicated in `pkg/tui` are
extensionally equal to those in `pkg/progress`: `progressFilename` agrees on
every (planFile, planDescription, mode) triple and `sanitizePlanName` agrees
on every description. -/
theorem tui_progress_filename_functions_equiv :
    (∀ planFile planDescription mode,
      tui.progressFilename planFile planDescription mode =
        progress.progressFilename planFile planDescription mode) ∧
    (∀ desc, tui.sanitizePlanName desc = progress.sanitizePlanName desc) :=
  ⟨fun _ _ _ => rfl, fun _ => rfl⟩

/-- C7: `SafeSender.Stop` is idempotent, and after a stop every send is a
no-op that forwards nothing to the wrapped sender. -/
theorem safeSender_stop_idempotent_send_noop :
    (∀ (μ : Type) (s : tui.SafeSender μ), s.stop.stop = s.stop) ∧
    (∀ (μ : Type) (s : tui.SafeSender μ) (m : μ), s.stop.send m = s.stop) := by
  refine ⟨fun μ s => rfl, fun μ s m => ?_⟩
  simp [tui.SafeSender.send, tui.SafeSender.stop]

/-- C8: when the UI closes the answer channel while `AskQuestion` waits, the
call returns the error `question canceled` and never an answer string. -/
theorem askQuestion_channel_closed_canceled (options : List String)
    (h : options ≠ []) :
    tui.askQuestion options tui.AskOutcome.chanClosed =
      Except.error "question canceled" ∧
    ∀ a, tui.askQuestion options tui.AskOutcome.chanClosed ≠ Except.ok a := by
  constructor
  · simp [tui.askQuestion, h]
  · intro a
    simp [tui.askQuestion, h]

/-- Witness for C8 at the concrete option list of `AskYesNo`. -/
theorem askQuestion_channel_closed_canceled_witness :
    tui.askQuestion ["Yes", "No"] tui.AskOutcome.chanClosed =
      Except.error "question canceled" :=
  (askQuestion_channel_closed_canceled ["Yes", "No"] (by decide)).1

/-- C3: branch-name derivation is the pure function of the plan path that the
claim describes: strip directory and `.md`, remove a leading run of digits
and dashes, trim leading dashes, and fall back to the stem when empty. -/
theorem extractBranchName_matches_spec :
    ∀ planFile, ralphex.extractBranchName planFile = branchNameSpec planFile :=
  fun _ => rfl

/-- C9 counterexample: with no plan file and no plan description but with the
`--review` flag set, the initial TUI state is `Executing`, not `SelectPlan`,
so "no plan specified implies SelectPlan" fails as stated. -/
theorem initialState_no_plan_counterexample :
    (ralphex.Opts.mk [] [] true false).planFile = [] ∧
    (ralphex.Opts.mk [] [] true false).planDescription = [] ∧
    ralphex.determineInitialTUIState (ralphex.Opts.mk [] [] true false)
        (ralphex.determineMode (ralphex.Opts.mk [] [] true false)) =
      tui.State.executing ∧
    tui.State.executing ≠ tui.State.selectPlan := by
  refine ⟨rfl, rfl, ?_, by decide⟩
  rfl

/-- C9 as amended: when no plan file and no plan description are given and
neither `--review` nor `--codex-only` is set, the initial TUI state is
`SelectPlan`. -/
theorem initialState_no_plan_selectPlan (o : ralphex.Opts)
    (h1 : o.planFile = []) (h2 : o.planDescription = [])
    (h3 : o.review = false) (h4 : o.codexOnly = false) :
    ralphex.determineInitialTUIState o (ralphex.determineMode o) =
      tui.State.selectPlan := by
  simp [ralphex.determineMode, ralphex.determineInitialTUIState, h1, h2, h3, h4]

/-- Witness for C9 as amended at the empty option set. -/
theorem initialState_no_plan_selectPlan_witness :
    ralphex.determineInitialTUIState (ralphex.Opts.mk [] [] false false)
        (ralphex.determineMode (ralphex.Opts.mk [] [] false false)) =
      tui.State.selectPlan :=
  initialState_no_plan_selectPlan (ralphex.Opts.mk [] [] false false)
    rfl rfl rfl rfl

/-- C2 counterexample: on the description `a b` the code maps the space to a
dash and returns `a-b`, while the claimed transformation (strip every
non-alphanumeric character other than dashes) returns `ab`. -/
theorem sanitizePlanName_claim_counterexample :
    progress.sanitizePlanName (str "a b") = str "a-b" ∧
    slugSpecC2 (str "a b") = str "ab" ∧
    progress.sanitizePlanName (str "a b") ≠ slugSpecC2 (str "a b") := by
  refine ⟨by decide, by decide, by decide⟩

/-- C2 as amended: for every description the slug is the description
lowercased, spaces replaced with dashes, other non-alphanumeric-non-dash
characters stripped, double dashes collapsed, leading and trailing dashes
trimmed, truncated to 50 characters with trailing dashes after truncation
removed, and `unnamed` when the result would otherwise be empty. -/
theorem sanitizePlanName_matches_amended_spec :
    ∀ desc, progress.sanitizePlanName desc = slugAmended desc :=
  fun _ => rfl

/-- C1: progress-file naming is the pure function of (plan file, description,
mode) that the claim describes: `progress-plan-<slug>.txt` in plan mode with
a description; `progress-<stem>.txt`, `progress-<stem>-review.txt`,
`progress-<stem>-codex.txt` for full/review/codex-only with a plan file; and
the stem-less fallbacks when no plan is selected. -/
theorem progressFilename_naming_cases :
    (∀ planFile desc, desc ≠ [] →
      progress.progressFilename planFile desc (str "plan") =
        str "progress-plan-" ++ progress.sanitizePlanName desc ++ str ".txt") ∧
    (∀ planFile desc, planFile ≠ [] →
      progress.progressFilename planFile desc (str "full") =
          str "progress-" ++ stemOf planFile ++ str ".txt" ∧
      progress.progressFilename planFile desc (str "review") =
          str "progress-" ++ stemOf planFile ++ str "-review.txt" ∧
      progress.progressFilename planFile desc (str "codex-only") =
          str "progress-" ++ stemOf planFile ++ str "-codex.txt") ∧
    (∀ desc,
      progress.progressFilename [] desc (str "full") = str "progress.txt" ∧
      progress.progressFilename [] desc (str "review") = str "progress-review.txt" ∧
      progress.progressFilename [] desc (str "codex-only") = str "progress-codex.txt" ∧
      progress.progressFilename [] [] (str "plan") = str "progress-plan.txt") := by
  refine ⟨?_, ?_, ?_⟩
  · intro planFile desc h
    simp [progress.progressFilename, h]
  · intro planFile desc h
    refine ⟨?_, ?_, ?_⟩ <;>
      simp [progress.progressFilename, h, stemOf, str]
  · intro desc
    refine ⟨?_, ?_, ?_, ?_⟩ <;> simp [progress.progressFilename, str]

/-- Witness for C1 at concrete inputs covering each hypothesis. -/
theorem progressFilename_naming_cases_witness :
    (str "add cache" ≠ [] ∧
      progress.progressFilename (str "p.md") (str "add cache") (str "plan") =
        str "progress-plan-" ++ progress.sanitizePlanName (str "add cache") ++ str ".txt") ∧
    (str "docs/plans/feature.md" ≠ [] ∧
      progress.progressFilename (str "docs/plans/feature.md") [] (str "full") =
        str "progress-" ++ stemOf (str "docs/plans/feature.md") ++ str ".txt") ∧
    progress.progressFilename [] [] (str "review") = str "progress-review.txt" := by
  refine ⟨⟨by decide, progressFilename_naming_cases.1 (str "p.md") (str "add cache") (by decide)⟩,
    ⟨by decide, (progressFilename_naming_cases.2.1 (str "docs/plans/feature.md") []
      (by decide)).1⟩,
    (progressFilename_naming_cases.2.2 []).2.1⟩

/-- Helper for C6: folding `appendOutput` over any starting buffer within the
cap keeps exactly the last `maxOutputLines` entries of buffer-plus-appends. -/
theorem appendOutput_foldl_general (ls : List String) :
    ∀ buf : List String, buf.length ≤ tui.maxOutputLines →
      ls.foldl tui.appendOutput buf =
        (buf ++ ls).drop ((buf ++ ls).length - tui.maxOutputLines) := by
  induction ls with
  | nil =>
    intro buf h
    have h0 : (buf ++ ([] : List String)).length - tui.maxOutputLines = 0 := by
      simp only [List.append_nil]
      omega
    rw [h0]
    simp
  | cons l ls ih =>
    intro buf h
    simp only [List.foldl_cons]
    by_cases hlen : (buf ++ [l]).length > tui.maxOutputLines
    · have hb : buf.length = tui.maxOutputLines := by
        rw [List.length_append] at hlen
        simp only [List.length_cons, List.length_nil] at hlen
        omega
      have hidx : (buf ++ [l]).length - tui.maxOutputLines = 1 := by
        rw [List.length_append, hb]
        simp
      have h1 : tui.appendOutput buf l = (buf ++ [l]).drop 1 := by
        unfold tui.appendOutput
        rw [if_pos hlen, hidx]
      have h2 : ((buf ++ [l]).drop 1).length ≤ tui.maxOutputLines := by
        simp only [List.length_drop, List.length_append, List.length_cons, List.length_nil]
        omega
      have hd : ((buf ++ [l]) ++ ls).drop 1 = (buf ++ [l]).drop 1 ++ ls := by
        refine List.drop_append_of_le_length ?_
        simp
      have hlb : ((buf ++ [l]).drop 1 ++ ls).length - tui.maxOutputLines = ls.length := by
        simp only [List.length_append, List.length_drop, List.length_cons, List.length_nil]
        omega
      have hrb : (buf ++ l :: ls).length - tui.maxOutputLines = 1 + ls.length := by
        simp only [List.length_append, List.length_cons]
        omega
      have harr : (buf ++ [l]) ++ ls = buf ++ l :: ls := by simp
      rw [h1, ih _ h2, hlb, ← hd, List.drop_drop, harr, ← hrb]
    · have hfit : (buf ++ [l]).length ≤ tui.maxOutputLines := by omega
      have h1 : tui.appendOutput buf l = buf ++ [l] := by
        unfold tui.appendOutput
        rw [if_neg hlen]
      have harr : (buf ++ [l]) ++ ls = buf ++ l :: ls := by simp
      rw [h1, ih _ hfit, harr]

/-- C6: starting from the empty buffer, after any sequence of appends the TUI
output buffer holds exactly the last (up to) 10 000 appended lines in their
original order; in particular once more than `maxOutputLines` lines have been
appended, the oldest are dropped. -/
theorem appendOutput_keeps_last_10000 (ls : List String) :
    ls.foldl tui.appendOutput [] = ls.drop (ls.length - tui.maxOutputLines) := by
  have h := appendOutput_foldl_general ls [] (by simp [tui.maxOutputLines])
  simpa using h

/-- Helper: the last nonempty line of a text that ends with a newline-wrapped
newline-free nonempty line is that line. -/
theorem lastNonEmptyLine_concat (c line : List Char) (h1 : line ≠ [])
    (h2 : '\n' ∉ line) :
    lastNonEmptyLine (c ++ '\n' :: (line ++ ['\n'])) = line := by
  unfold lastNonEmptyLine
  have hrev : (c ++ '\n' :: (line ++ ['\n'])).reverse =
      '\n' :: (line.reverse ++ '\n' :: c.reverse) := by
    simp
  rw [hrev]
  rw [List.dropWhile_cons]
  simp only [beq_self_eq_true, if_true]
  obtain ⟨a, t, hlr⟩ : ∃ a t, line.reverse = a :: t := by
    cases hl : line.reverse with
    | nil => exact absurd (by simpa using hl) h1
    | cons a t => exact ⟨a, t, rfl⟩
  have ha : a ≠ '\n' := by
    intro hEq
    apply h2
    have : a ∈ line.reverse := by rw [hlr]; exact List.mem_cons_self a t
    rw [← hEq]
    exact List.mem_reverse.mp this
  rw [hlr]
  rw [List.cons_append, List.dropWhile_cons]
  have hab : (a == '\n') = false := by simpa using ha
  rw [hab]
  simp only [Bool.false_eq_true, if_false]
  have hall : ∀ x ∈ a :: t, (x != '\n') = true := by
    intro x hx
    have hxl : x ∈ line := by
      apply List.mem_reverse.mp
      rw [hlr]
      exact hx
    simp only [bne_iff_ne, ne_eq]
    intro hEq
    exact h2 (hEq ▸ hxl)
  rw [← List.cons_append, List.takeWhile_append_of_pos hall]
  rw [List.takeWhile_cons]
  simp only [bne_self_eq_false]
  simp only [Bool.false_eq_true, if_false, List.append_nil]
  rw [← hlr, List.reverse_reverse]

/-- C5 counterexample: the `pkg/progress` logger's completion line carries the
elapsed time in parentheses after the timestamp, so it is not of the exact
form `Completed: <timestamp>` with nothing after it. -/
theorem close_footer_counterexample :
    lastNonEmptyLine ((progress.closeLogger (progress.LoggerState.mk true true [])
        (str "2024-01-02 03:04:05") (str "1 minute")).content) =
      str "Completed: 2024-01-02 03:04:05 (1 minute)" ∧
    str "Completed: 2024-01-02 03:04:05 (1 minute)" ≠
      str "Completed: " ++ str "2024-01-02 03:04:05" := by
  exact ⟨by decide, by decide⟩

/-- C5 as amended: for every logger with an open progress file (and newline-free
timestamp and elapsed strings), `Close` releases the file lock, closes the
file, and writes a footer whose completion line is `Completed: <timestamp>`
for the `pkg/tui` logger and `Completed: <timestamp> (<elapsed>)` for the
`pkg/progress` logger. -/
theorem close_writes_footer_and_releases (l : progress.LoggerState)
    (ts elapsed : List Char) (hopen : l.fileOpen = true)
    (hts : '\n' ∉ ts) (hel : '\n' ∉ elapsed) :
    ((tui.closeLogger l ts).fileOpen = false ∧
     (tui.closeLogger l ts).locked = false ∧
     lastNonEmptyLine (tui.closeLogger l ts).content =
       str "Completed: " ++ ts) ∧
    ((progress.closeLogger l ts elapsed).fileOpen = false ∧
     (progress.closeLogger l ts elapsed).locked = false ∧
     lastNonEmptyLine (progress.closeLogger l ts elapsed).content =
       str "Completed: " ++ ts ++ str " (" ++ elapsed ++ str ")") := by
  have hCne : str "Completed: " ≠ [] := by decide
  have hCmem : '\n' ∉ str "Completed: " := by decide
  constructor
  · have hline_ne : str "Completed: " ++ ts ≠ [] :=
      List.append_ne_nil_of_left_ne_nil hCne ts
    have hline_mem : '\n' ∉ str "Completed: " ++ ts := by
      simp only [List.mem_append]
      rintro (h | h)
      · exact hCmem h
      · exact hts h
    refine ⟨?_, ?_, ?_⟩
    · simp [tui.closeLogger, hopen]
    · simp [tui.closeLogger, hopen]
    · have hc : (tui.closeLogger l ts).content =
          (l.content ++ '\n' :: progress.dashes60) ++
            '\n' :: ((str "Completed: " ++ ts) ++ ['\n']) := by
        simp [tui.closeLogger, hopen]
      rw [hc]
      exact lastNonEmptyLine_concat _ _ hline_ne hline_mem
  · have hline_ne :
        str "Completed: " ++ ts ++ str " (" ++ elapsed ++ str ")" ≠ [] :=
      List.append_ne_nil_of_left_ne_nil
        (List.append_ne_nil_of_left_ne_nil
          (List.append_ne_nil_of_left_ne_nil
            (List.append_ne_nil_of_left_ne_nil hCne ts) (str " (")) elapsed)
        (str ")")
    have hline_mem :
        '\n' ∉ str "Completed: " ++ ts ++ str " (" ++ elapsed ++ str ")" := by
      simp only [List.mem_append]
      rintro ((((h | h) | h) | h) | h)
      · exact hCmem h
      · exact hts h
      · revert h; decide
      · exact hel h
      · revert h; decide
    refine ⟨?_, ?_, ?_⟩
    · simp [progress.closeLogger, hopen]
    · simp [progress.closeLogger, hopen]
    · have hc : (progress.closeLogger l ts elapsed).content =
          (l.content ++ '\n' :: progress.dashes60) ++
            '\n' ::
              ((str "Completed: " ++ ts ++ str " (" ++ elapsed ++ str ")") ++
                ['\n']) := by
        simp [progress.closeLogger, hopen]
      rw [hc]
      exact lastNonEmptyLine_concat _ _ hline_ne hline_mem

/-- Witness for C5 as amended at a concrete open logger. -/
theorem close_writes_footer_and_releases_witness :
    (progress.LoggerState.mk true true []).fileOpen = true ∧
    lastNonEmptyLine (tui.closeLogger (progress.LoggerState.mk true true [])
        (str "2024-01-02 03:04:05")).content =
      str "Completed: " ++ str "2024-01-02 03:04:05" :=
  ⟨rfl,
    ((close_writes_footer_and_releases (progress.LoggerState.mk true true [])
      (str "2024-01-02 03:04:05") (str "1 minute") rfl (by decide)
      (by decide)).1).2.2⟩

/-- Helper: `splitLines` always returns at least one segment. -/
theorem splitLines_ne_nil (s : List Char) : splitLines s ≠ [] := by
  cases s with
  | nil => simp [splitLines]
  | cons c rest =>
    simp only [splitLines]
    by_cases h : c = '\n'
    · simp [h]
    · simp only [h, if_false]
      cases splitLines rest with
      | nil => simp
      | cons l ls => simp

/-- Helper: appending a newline appends one empty segment to the split. -/
theorem splitLines_append_newline (s : List Char) :
    splitLines (s ++ ['\n']) = splitLines s ++ [[]] := by
  induction s with
  | nil => rfl
  | cons c rest ih =>
    by_cases h : c = '\n'
    · subst h
      simp [splitLines, ih]
    · rw [List.cons_append]
      simp only [splitLines, h, if_false, ih]
      cases hsp : splitLines rest with
      | nil => exact absurd hsp (splitLines_ne_nil rest)
      | cons l ls => simp

/-- Helper: trailing newlines only contribute empty segments, so the nonempty
lines of `s ++ replicate n newline` are those of `s`. -/
theorem filter_splitLines_replicate (n : Nat) (s : List Char) :
    (splitLines (s ++ List.replicate n '\n')).filter (fun l => !l.isEmpty) =
      (splitLines s).filter (fun l => !l.isEmpty) := by
  induction n with
  | zero => simp
  | succ m ih =>
    rw [List.replicate_succ' m '\n', ← List.append_assoc,
      splitLines_append_newline]
    rw [List.filter_append]
    simpa using ih

/-- Helper: every text is its newline-trimmed form followed by some run of
newlines. -/
theorem trim_decomp (s : List Char) :
    ∃ n, s = trimTrailingNewlines s ++ List.replicate n '\n' := by
  refine ⟨(s.reverse.takeWhile (· == '\n')).length, ?_⟩
  have hsplit : s.reverse.takeWhile (· == '\n') ++
      s.reverse.dropWhile (· == '\n') = s.reverse :=
    List.takeWhile_append_dropWhile (p := (· == '\n')) (l := s.reverse)
  have hrep : s.reverse.takeWhile (· == '\n') =
      List.replicate (s.reverse.takeWhile (· == '\n')).length '\n' := by
    apply List.eq_replicate_of_mem
    intro b hb
    have := List.mem_takeWhile_imp hb
    simpa using this
  calc s = s.reverse.reverse := (List.reverse_reverse s).symm
    _ = (s.reverse.takeWhile (· == '\n') ++
          s.reverse.dropWhile (· == '\n')).reverse := by rw [hsplit]
    _ = (s.reverse.dropWhile (· == '\n')).reverse ++
          (s.reverse.takeWhile (· == '\n')).reverse := by
        rw [List.reverse_append]
    _ = trimTrailingNewlines s ++
          List.replicate (s.reverse.takeWhile (· == '\n')).length '\n' := by
        rw [trimTrailingNewlines]
        congr 1
        rw [hrep]
        simp [List.reverse_replicate]

/-- Helper: the per-line option map in `printAligned` is a filter of the
nonempty lines followed by a plain map. -/
theorem filterMap_if_eq_filter_map {α : Type} (f : List Char → α)
    (xs : List (List Char)) :
    (xs.filterMap fun line => if line = [] then none else some (f line)) =
      (xs.filter (fun l => !l.isEmpty)).map f := by
  induction xs with
  | nil => rfl
  | cons x xs ih =>
    by_cases hx : x = []
    · subst hx
      simp [ih]
    · simp only [List.filterMap_cons, List.filter_cons, hx, if_false]
      have : (!x.isEmpty) = true := by
        simp [List.isEmpty_iff, hx]
      rw [this]
      simp [ih, hx]

/-- Helper: the numbered-list scan equals the claim's digits-then-dot-space
reading. -/
theorem numTail_eq (t : List Char) :
    progress.numTail t =
      leadsWith (str ". ") (t.drop (t.takeWhile isDigitChar).length) := by
  induction t with
  | nil => rfl
  | cons d t' ih =>
    by_cases hd : isDigitChar d
    · simp only [progress.numTail, hd, if_true, List.takeWhile_cons,
        List.length_cons]
      rw [ih]
      congr 1
    · by_cases h2 : d = '.'
      · subst h2
        simp only [progress.numTail, hd, Bool.false_eq_true, if_false, if_true]
        have htw : List.takeWhile isDigitChar ('.' :: t') = [] := by
          simp [List.takeWhile_cons, hd]
        rw [htw]
        simp [leadsWith, str]
      · simp only [progress.numTail, hd, Bool.false_eq_true, if_false, h2]
        have htw : List.takeWhile isDigitChar (d :: t') = [] := by
          simp [List.takeWhile_cons, hd]
        rw [htw]
        simp only [List.length_nil, List.drop_zero]
        have hne : ('.' == d) = false := by
          simp only [beq_eq_false_iff_ne, ne_eq]
          exact fun h => h2 h.symm
        simp [leadsWith, str, hne]

/-- Helper: the numbered branch of `isListItem` on a cons cell equals the
takeWhile/drop formulation of the claim. -/
theorem numberedPart_eq (c : Char) (rest : List Char) :
    (isDigitChar c && progress.numTail rest) =
      (!(List.takeWhile isDigitChar (c :: rest)).isEmpty &&
        leadsWith (str ". ")
          ((c :: rest).drop (List.takeWhile isDigitChar (c :: rest)).length)) := by
  by_cases hc : isDigitChar c
  · rw [List.takeWhile_cons, if_pos hc]
    simp only [hc, Bool.true_and, List.isEmpty_cons, Bool.not_false,
      List.length_cons, List.drop_succ_cons]
    exact numTail_eq rest
  · rw [List.takeWhile_cons, if_neg hc]
    simp [hc]

/-- Helper: `isListItem` agrees with the claim's list-marker predicate. -/
theorem isListItem_eq (l : List Char) :
    progress.isListItem l = listMarkerSpec l := by
  cases l with
  | nil => rfl
  | cons c rest =>
    exact congrArg
      (fun b => leadsWith (str "- ") (c :: rest) ||
        leadsWith (str "* ") (c :: rest) || b)
      (numberedPart_eq c rest)

/-- Helper: a line starting with a space or tab matches no list marker. -/
theorem listMarkerSpec_ws (c : Char) (rest : List Char)
    (h : (c == ' ' || c == '\t') = true) :
    listMarkerSpec (c :: rest) = false := by
  have hc : c = ' ' ∨ c = '\t' := by
    rcases Bool.or_eq_true_iff.mp h with h1 | h1
    · exact Or.inl (by simpa using h1)
    · exact Or.inr (by simpa using h1)
  have hnd : isDigitChar c = false := by
    rcases hc with h1 | h1 <;> subst h1 <;> decide
  have hs1 : str "- " = ['-', ' '] := rfl
  have hs2 : str "* " = ['*', ' '] := rfl
  simp only [listMarkerSpec, List.takeWhile_cons, hnd, Bool.false_eq_true,
    if_false, List.isEmpty_nil, Bool.not_true, Bool.false_and, Bool.or_false,
    hs1, hs2]
  rcases hc with h1 | h1 <;> subst h1 <;> simp [leadsWith]

/-- Helper: `formatListItem` indents exactly the lines matched by the claim's
list-marker predicate. -/
theorem formatListItem_eq (l : List Char) :
    progress.formatListItem l =
      if listMarkerSpec l then ' ' :: ' ' :: l else l := by
  cases l with
  | nil => rfl
  | cons c rest =>
    by_cases hws : (c == ' ' || c == '\t') = true
    · have hdrop : (c :: rest).dropWhile (fun c => c == ' ' || c == '\t') ≠
          c :: rest := by
        rw [List.dropWhile_cons, if_pos hws]
        intro hEq
        have hlen := congrArg List.length hEq
        have hle : (rest.dropWhile (fun c => c == ' ' || c == '\t')).length ≤
            rest.length :=
          List.Sublist.length_le (List.dropWhile_sublist _)
        simp at hlen
        omega
      rw [progress.formatListItem]
      simp only [hdrop, false_and, if_false]
      rw [listMarkerSpec_ws c rest hws]
      simp
    · have hdrop : (c :: rest).dropWhile (fun c => c == ' ' || c == '\t') =
          c :: rest := by
        rw [List.dropWhile_cons, if_neg hws]
      rw [progress.formatListItem]
      simp only [hdrop, true_and, if_true]
      rw [isListItem_eq]

/-- C4: for every input text, `PrintAligned` writes exactly the nonempty
lines of the newline-split of the text, each prefixed with a timestamp tag,
with a two-space indent applied exactly to lines beginning with a bullet
(`- `, `* `) or a run of digits followed by `. `; the `pkg/tui` duplicate
writes the same lines; and `PrintAligned` on the empty text writes nothing. -/
theorem printAligned_writes_nonempty_lines :
    (∀ ts text,
      progress.printAligned ts text =
        ((splitLines text).filter (fun l => !l.isEmpty)).map
          (fun l => '[' :: ts ++ ']' :: ' ' ::
            (if listMarkerSpec l then ' ' :: ' ' :: l else l)) ∧
      tui.printAligned ts text = progress.printAligned ts text) ∧
    (∀ ts, progress.printAligned ts [] = []) := by
  refine ⟨fun ts text => ⟨?_, rfl⟩, fun ts => rfl⟩
  have hf : (fun line : List Char =>
        '[' :: ts ++ ']' :: ' ' :: progress.formatListItem line) =
      (fun l : List Char => '[' :: ts ++ ']' :: ' ' ::
        (if listMarkerSpec l then ' ' :: ' ' :: l else l)) := by
    funext line
    rw [formatListItem_eq]
  by_cases h0 : text = []
  · subst h0
    simp [progress.printAligned, splitLines]
  · unfold progress.printAligned
    rw [if_neg h0]
    by_cases h1 : trimTrailingNewlines text = []
    · rw [if_pos h1]
      obtain ⟨n, hn⟩ := trim_decomp text
      rw [hn, h1]
      have h2 : (splitLines (List.replicate n '\n')).filter
            (fun l => !l.isEmpty) =
          (splitLines []).filter (fun l => !l.isEmpty) := by
        simpa using filter_splitLines_replicate n []
      rw [List.nil_append, h2]
      simp [splitLines]
    · rw [if_neg h1]
      rw [filterMap_if_eq_filter_map
        (fun line => '[' :: ts ++ ']' :: ' ' :: progress.formatListItem line)]
      obtain ⟨n, hn⟩ := trim_decomp text
      conv_rhs => rw [hn]
      rw [filter_splitLines_replicate n (trimTrailingNewlines text)]
      rw [hf]
